import Mathlib

/-!
# Nano-Parrot tracking-and-session engine: a verification development

Shallow embedding of the core of the Nano-Parrot repository:

* the IoU matcher and identity tracker (`src/lib/tracker.ts`),
* the session lifecycle manager (`src/routes/+page.svelte`),
* the Dexie session store operations (`src/lib/dexieDb.ts`),
* the hourly aggregator (`src/lib/sessionAggregator.ts`).

Numbers that are JS floats holding exact small values (normalized box
coordinates, scores, thresholds) are modelled as rationals; timestamps
(epoch milliseconds) are modelled as integers, which matches JS number
arithmetic on these values exactly.
-/

namespace NanoParrot

/-! ## IoU matcher (`src/lib/tracker.ts`, `calculateIoU`) -/

/-- A box `[x, y, w, h]` as used throughout the tracker. -/
structure Box where
  x : ℚ
  y : ℚ
  w : ℚ
  h : ℚ
  deriving DecidableEq, Repr

/-- Width of the clamped intersection of two boxes:
`Math.max(0, Math.min(ax+aw, bx+bw) - Math.max(ax, bx))`. -/
def interW (a b : Box) : ℚ :=
  max 0 (min (a.x + a.w) (b.x + b.w) - max a.x b.x)

/-- Height of the clamped intersection of two boxes. -/
def interH (a b : Box) : ℚ :=
  max 0 (min (a.y + a.h) (b.y + b.h) - max a.y b.y)

/-- `intersectionArea` of `calculateIoU`. -/
def interArea (a b : Box) : ℚ := interW a b * interH a b

/-- `unionArea = areaA + areaB - intersectionArea` of `calculateIoU`. -/
def unionArea (a b : Box) : ℚ := a.w * a.h + b.w * b.h - interArea a b

/-- `calculateIoU` from `src/lib/tracker.ts`: intersection over union,
with `if (unionArea === 0) return 0`. -/
def calculateIoU (a b : Box) : ℚ :=
  if unionArea a b = 0 then 0 else interArea a b / unionArea a b

/-! ## Identity tracker (`src/lib/tracker.ts`, `processFrame`)

`processFrame` is modelled from the point where the detector output has been
converted to normalized detections (the spec's contract
`processFrame(detections, now)`); the MediaPipe call itself is the external
detector boundary. `generateID` is random in the source; it is modelled as
an id supply `gen : Nat → String` consumed at an incrementing counter. -/

/-- `TRACKER_CONFIG` from `src/lib/config.ts`. -/
structure TrackerConfig where
  iouThreshold : ℚ
  gracePeriodMs : Int
  highScoreThreshold : ℚ
  lowScoreThreshold : ℚ
  confirmationFrames : Nat
  minAreaRatio : ℚ
  maxAspectRatio : ℚ
  minAspectRatio : ℚ

def TRACKER_CONFIG : TrackerConfig where
  iouThreshold := 3/10
  gracePeriodMs := 2000
  highScoreThreshold := 1/2
  lowScoreThreshold := 3/10
  confirmationFrames := 3
  minAreaRatio := 5/1000
  maxAspectRatio := 4
  minAspectRatio := 1/4

/-- A raw detection after conversion to normalized coordinates. -/
structure Det where
  bbox : Box
  score : ℚ
  deriving DecidableEq, Repr

/-- `LocalTrack` from `src/lib/tracker.ts`. -/
structure LocalTrack where
  id : String
  bbox : Box
  score : ℚ
  firstSeen : Int
  lastSeen : Int
  matched : Bool
  consecutiveFrames : Nat
  isConfirmed : Bool
  deriving DecidableEq, Repr

/-- Tracker state: the `localTracks` array plus the id-supply counter. -/
structure TrackerState where
  tracks : List LocalTrack
  nextId : Nat
  deriving DecidableEq, Repr

/-- Step 1.5 of `processFrame`: geometric filtering of the detections by
minimum area and aspect-ratio band. -/
def filterDets (dets : List Det) : List Det :=
  dets.filter fun d =>
    if d.bbox.w * d.bbox.h < TRACKER_CONFIG.minAreaRatio then false
    else if TRACKER_CONFIG.maxAspectRatio < d.bbox.w / d.bbox.h then false
    else if d.bbox.w / d.bbox.h < TRACKER_CONFIG.minAspectRatio then false
    else true

/-- `localTracks.forEach(t => t.matched = false)`. -/
def resetMatched (ts : List LocalTrack) : List LocalTrack :=
  ts.map fun t => { t with matched := false }

/-- The best-IoU scan over existing tracks for one detection: starts from
`bestIoU = 0`, `bestMatchIndex = -1` and takes an index only on a strict
improvement (`iou > bestIoU`), so the first index wins ties. -/
def findBest (ts : List LocalTrack) (d : Det) : ℚ × Option Nat :=
  ts.enum.foldl
    (fun acc p => if acc.1 < calculateIoU p.2.bbox d.bbox
      then (calculateIoU p.2.bbox d.bbox, some p.1) else acc)
    (0, none)

/-- Updating a matched track: overwrite box/score, refresh `lastSeen`, set
`matched`, increment `consecutiveFrames` and confirm once it reaches
`confirmationFrames`. -/
def matchUpdate (t : LocalTrack) (d : Det) (now : Int) : LocalTrack :=
  { t with
    bbox := d.bbox
    score := d.score
    lastSeen := now
    matched := true
    consecutiveFrames := t.consecutiveFrames + 1
    isConfirmed :=
      if TRACKER_CONFIG.confirmationFrames ≤ t.consecutiveFrames + 1 then true
      else t.isConfirmed }

/-- A freshly created track: `consecutiveFrames = 1`, `isConfirmed = false`,
`matched = true`, both timestamps at `now`. -/
def newTrack (id : String) (d : Det) (now : Int) : LocalTrack :=
  { id := id, bbox := d.bbox, score := d.score, firstSeen := now, lastSeen := now,
    matched := true, consecutiveFrames := 1, isConfirmed := false }

/-- The new-track branch of the per-detection loop: hysteresis requires the
stricter `highScoreThreshold` to start a track. -/
def createBranch (ts : List LocalTrack) (k : Nat) (gen : Nat → String) (d : Det)
    (now : Int) : List LocalTrack × Nat :=
  if d.score < TRACKER_CONFIG.highScoreThreshold then (ts, k)
  else (ts ++ [newTrack (gen k) d now], k + 1)

/-- One iteration of `currentDetections.forEach(det => ...)`: find the best
IoU match among all current tracks; update it if the IoU clears the
association threshold, otherwise possibly create a new track. -/
def applyDet (now : Int) (gen : Nat → String) (st : List LocalTrack × Nat)
    (d : Det) : List LocalTrack × Nat :=
  let best := findBest st.1 d
  match best.2 with
  | some i =>
    if TRACKER_CONFIG.iouThreshold < best.1 then
      match st.1.get? i with
      | some t => (st.1.set i (matchUpdate t d now), st.2)
      | none => st
    else createBranch st.1 st.2 gen d now
  | none => createBranch st.1 st.2 gen d now

/-- Steps 1.5–2 of `processFrame`: filter, reset `matched`, then associate
each surviving detection in order. -/
def matchPhase (gen : Nat → String) (dets : List Det) (now : Int)
    (st : TrackerState) : List LocalTrack × Nat :=
  (filterDets dets).foldl (applyDet now gen) (resetMatched st.tracks, st.nextId)

/-- Whether a track survives step 3 (prune): `(now - t.lastSeen) < gracePeriodMs`. -/
def keepTrack (now : Int) (t : LocalTrack) : Bool :=
  decide (now - t.lastSeen < TRACKER_CONFIG.gracePeriodMs)

/-- `processFrame(detections, now)`: filter, reset, associate, prune. -/
def processFrame (gen : Nat → String) (dets : List Det) (now : Int)
    (st : TrackerState) : TrackerState :=
  { tracks := (matchPhase gen dets now st).1.filter (keepTrack now)
    nextId := (matchPhase gen dets now st).2 }

/-- Step 4 of `processFrame`: the view published to the store exposes only
confirmed tracks. -/
def publishedView (st : TrackerState) : List LocalTrack :=
  st.tracks.filter fun t => t.isConfirmed

/-- A sequence of frames: `processFrame` applied in order, each frame being a
detection list with its timestamp. -/
def runFrames (gen : Nat → String) (frames : List (List Det × Int))
    (st : TrackerState) : TrackerState :=
  frames.foldl (fun s f => processFrame gen f.1 f.2 s) st

/-! ### Confirmation hysteresis machinery for the tracker -/

/-- Evolution order on a single track across updates inside frames: the id is
stable, `consecutiveFrames` never decreases, `isConfirmed` never reverts, and
a newly set `isConfirmed` is justified by the confirmation bar. -/
def TrackLe (t t' : LocalTrack) : Prop :=
  t.id = t'.id ∧ t.consecutiveFrames ≤ t'.consecutiveFrames ∧
    (t.isConfirmed = true → t'.isConfirmed = true) ∧
    (t'.isConfirmed = true → t.isConfirmed = true ∨
      TRACKER_CONFIG.confirmationFrames ≤ t'.consecutiveFrames)

/-- A track that was created during the evolution from counter `k₀` to
counter `k₁`: its id comes from the id supply in that range, and if it is
already confirmed it has passed the confirmation bar. -/
def NewOk (gen : Nat → String) (k₀ k₁ : Nat) (t' : LocalTrack) : Prop :=
  (∃ j, k₀ ≤ j ∧ j < k₁ ∧ t'.id = gen j) ∧
    (t'.isConfirmed = true → TRACKER_CONFIG.confirmationFrames ≤ t'.consecutiveFrames)

/-- Simulation: every track of the evolved list either evolved from a track
of the original list or was created with a fresh id from the supply. -/
def SimFrom (gen : Nat → String) (ts₀ : List LocalTrack) (k₀ : Nat)
    (ts₁ : List LocalTrack) (k₁ : Nat) : Prop :=
  ∀ t' ∈ ts₁, (∃ t ∈ ts₀, TrackLe t t') ∨ NewOk gen k₀ k₁ t'

/-- Invariant on the track list paired with the id counter: all ids are
pairwise distinct and were drawn from the supply below the counter. -/
def PairOk (gen : Nat → String) (p : List LocalTrack × Nat) : Prop :=
  (p.1.map LocalTrack.id).Nodup ∧ ∀ t ∈ p.1, ∃ j, j < p.2 ∧ t.id = gen j

/-- `IdsOk` for a tracker state. -/
def IdsOk (gen : Nat → String) (st : TrackerState) : Prop :=
  PairOk gen (st.tracks, st.nextId)

/-- The confirmation-bar invariant of C5: a confirmed track has accumulated
at least `confirmationFrames` consecutive matches. -/
def ConfOk (st : TrackerState) : Prop :=
  ∀ t ∈ st.tracks, t.isConfirmed = true →
    TRACKER_CONFIG.confirmationFrames ≤ t.consecutiveFrames

/-- A concrete injective id supply for witnesses. -/
def genW : Nat → String := fun n => String.mk (List.replicate n 'a')

/-- A concrete tracker state holding one confirmed track with id `genW 0`. -/
def stW : TrackerState :=
  ⟨[⟨"", ⟨0, 0, 1/2, 1/2⟩, 9/10, 0, 0, true, 3, true⟩], 1⟩

/-! ## Session lifecycle manager (`src/routes/+page.svelte`) and session
store (`src/lib/dexieDb.ts`)

The `activeSessions` map (`Map UID -> {sessionId, startTime, lastSeen}`) is
modelled as an association list in insertion order; the Dexie `sessions`
table as a list of `UserSession` keyed by `sessionId`. Database calls made
by `cleanupStaleSessions` are collected as a list of operations in call
order and applied to the table model. -/

/-- `MIN_SESSION_DURATION = 1000` (ms): "sessions shorter than this are
deleted". -/
def MIN_SESSION_DURATION : Int := 1000

/-- `SESSION_TIMEOUT = 5000` (ms): grace period before ending a session. -/
def SESSION_TIMEOUT : Int := 5000

/-- An entry of the in-memory `activeSessions` map. -/
structure SessionData where
  sessionId : String
  startTime : Int
  lastSeen : Int
  deriving DecidableEq, Repr

/-- A database call emitted by the session manager. -/
inductive DbOp where
  | endSession (sessionId : String)
  | deleteSession (sessionId : String)
  deriving DecidableEq, Repr

/-- The finalize-or-delete decision of `cleanupStaleSessions` at grace-period
expiry: `sessionDuration = now - sessionData.startTime`, finalized iff
`sessionDuration >= MIN_SESSION_DURATION`. -/
def closeOp (now : Int) (sd : SessionData) : DbOp :=
  if MIN_SESSION_DURATION ≤ now - sd.startTime then DbOp.endSession sd.sessionId
  else DbOp.deleteSession sd.sessionId

/-- `cleanupStaleSessions(currentTrackIds)`: for each active session whose
uid is not currently tracked and whose grace period has expired, emit the
finalize-or-delete call and remove it from the map; all other entries are
kept. Returns the updated map and the emitted calls in order. -/
def cleanupStaleSessions (now : Int) (currentTrackIds : List String)
    (active : List (String × SessionData)) :
    List (String × SessionData) × List DbOp :=
  active.foldl
    (fun acc p =>
      if p.1 ∈ currentTrackIds then (acc.1 ++ [p], acc.2)
      else if SESSION_TIMEOUT < now - p.2.lastSeen then
        (acc.1, acc.2 ++ [closeOp now p.2])
      else (acc.1 ++ [p], acc.2))
    ([], [])

/-- `AnalysisEvent` from `src/lib/dexieDb.ts`. -/
structure AnalysisEvent where
  timestamp : Int
  targetUid : String
  prompt : String
  result : String
  deriving DecidableEq, Repr

/-- `UserSession` from `src/lib/dexieDb.ts` (`duration` in seconds). -/
structure UserSession where
  sessionId : String
  firstSeen : Int
  lastSeen : Int
  duration : ℚ
  events : List AnalysisEvent
  deriving DecidableEq, Repr

/-- `startSession(sessionId)`: put a fresh session row. -/
def startSession (now : Int) (sessionId : String) (db : List UserSession) :
    List UserSession :=
  db ++ [{ sessionId := sessionId, firstSeen := now, lastSeen := now,
           duration := 0, events := [] }]

/-- `updateSessionHeartbeat(sessionId)`: if the session exists, set
`lastSeen = Date.now()` and `duration = (lastSeen - firstSeen)/1000`. -/
def updateSessionHeartbeat (now : Int) (sessionId : String)
    (db : List UserSession) : List UserSession :=
  db.map fun s =>
    if s.sessionId = sessionId then
      { s with lastSeen := now, duration := ((now - s.firstSeen : Int) : ℚ) / 1000 }
    else s

/-- `endSession(sessionId)` simply delegates to `updateSessionHeartbeat`. -/
def endSession (now : Int) (sessionId : String) (db : List UserSession) :
    List UserSession :=
  updateSessionHeartbeat now sessionId db

/-- `deleteSession(sessionId)`. -/
def deleteSession (sessionId : String) (db : List UserSession) :
    List UserSession :=
  db.filter fun s => s.sessionId ≠ sessionId

/-- `addAnalysisLog(sessionId, targetUid, prompt, result)`: append the event
and refresh `lastSeen`/`duration`; warn-and-skip when the session row is
missing. -/
def addAnalysisLog (now : Int) (sessionId targetUid prompt result : String)
    (db : List UserSession) : List UserSession :=
  db.map fun s =>
    if s.sessionId = sessionId then
      { s with
        events := s.events ++
          [{ timestamp := now, targetUid := targetUid, prompt := prompt,
             result := result }]
        lastSeen := now
        duration := ((now - s.firstSeen : Int) : ℚ) / 1000 }
    else s

/-- Apply one emitted database call to the session table. -/
def applyDbOp (now : Int) (db : List UserSession) : DbOp → List UserSession
  | DbOp.endSession sid => endSession now sid db
  | DbOp.deleteSession sid => deleteSession sid db

/-- Apply the emitted calls in order. -/
def applyDbOps (now : Int) (ops : List DbOp) (db : List UserSession) :
    List UserSession :=
  ops.foldl (applyDbOp now) db

/-- One per-identity inference result, as consumed by the analysis loop
(`res.uid` plus the structured attribute fields that are serialized into the
event's `result` payload). -/
structure NanoResult where
  uid : String
  fields : List (String × String)
  deriving DecidableEq, Repr

/-- The fallback result built by `analyzeFrameWithNanoStreaming` when the
model output fails to parse as JSON: a single entry with `uid: 'raw'` and
sentinel fields. -/
def rawFallbackResult (cleanResult : String) : NanoResult :=
  { uid := "raw"
    fields := [("age", "unknown"), ("sex", "unknown"), ("fashion", cleanResult),
      ("emotion", "unknown"), ("action", "unknown"), ("direction", "unknown"),
      ("accessories", "unknown"), ("posture", "unknown")] }

/-- Outcome of one inference call in `analyzeFrameWithNanoStreaming`:
success with parsed per-identity results, JSON-parse failure of the
accumulated text, or a thrown error (engine failure); the last two are
caught inside the function. -/
inductive NanoOutcome where
  | success (results : List NanoResult)
  | parseFailure (cleanResult : String)
  | engineFailure

/-- The `results` array `analyzeFrameWithNanoStreaming` resolves with: the
parsed array on success, the single `uid: 'raw'` fallback on a parse
failure, and `[]` when the call threw (the `catch` branch). The function
never rejects. -/
def nanoResponseResults : NanoOutcome → List NanoResult
  | NanoOutcome.success rs => rs
  | NanoOutcome.parseFailure txt => [rawFallbackResult txt]
  | NanoOutcome.engineFailure => []

/-- `activeSessions.get(uid)`. -/
def lookupSession (active : List (String × SessionData)) (uid : String) :
    Option SessionData :=
  (active.find? fun p => p.1 = uid).map (·.2)

/-- Step 3 of the analysis loop: for each returned result, append an event to
the matching open session's row, if any (`activeSessions.get(res.uid)`);
results without an open session are dropped. The in-memory map is not
touched by this step. -/
def logResults (now : Int) (encode : List (String × String) → String)
    (active : List (String × SessionData)) (prompt : String)
    (results : List NanoResult) (db : List UserSession) : List UserSession :=
  results.foldl
    (fun db res =>
      match lookupSession active res.uid with
      | some sd => addAnalysisLog now sd.sessionId res.uid prompt
          (encode res.fields) db
      | none => db)
    db

/-! ## Analysis loop scheduling (`startAnalysisLoop` in
`src/routes/+page.svelte`)

The cooperative async structure of the loop is modelled as a transition
system. A state records the `isAnalyzing` flag, whether a `loop` invocation
is queued (`analysisTimeout` armed), and how many inference calls are
outstanding. One cycle runs synchronously up to the `await` of
`analyzeFrameWithNanoStreaming` — either starting a call (when valid tracks
and a ready video are present) or reaching the rescheduling line directly —
and the continuation after the call resolves (success or failure, thanks to
the enclosing `try/catch`) re-arms the timeout. -/

/-- State of the analysis-loop scheduler. -/
structure LoopState where
  analyzing : Bool
  pending : Bool
  inFlight : Nat
  deriving DecidableEq, Repr

/-- The synchronous part of one `loop()` invocation. `makesCall` abstracts
whether this cycle reaches the inference call (it depends on tracker and
video state). The body returns early when `isAnalyzing` is false; otherwise
it either starts the call or falls through to `setTimeout(loop, 0)`. -/
def cycleBody (makesCall : Bool) (s : LoopState) : LoopState :=
  if !s.analyzing then s
  else if makesCall then { s with inFlight := s.inFlight + 1 }
  else { s with pending := true }

/-- Scheduler events: `startLoop` (the guarded `startAnalysisLoop`), the
armed timeout firing (running one cycle), and an outstanding inference call
resolving (running the continuation, which re-arms the timeout if the loop
is still analyzing). -/
inductive LoopEvent where
  | startLoop (makesCall : Bool)
  | timerFire (makesCall : Bool)
  | callResolve

/-- One scheduler transition. -/
def loopStep : LoopEvent → LoopState → LoopState
  | LoopEvent.startLoop mc, s =>
    if s.analyzing then s else cycleBody mc { s with analyzing := true }
  | LoopEvent.timerFire mc, s =>
    if s.pending then cycleBody mc { s with pending := false } else s
  | LoopEvent.callResolve, s =>
    if 0 < s.inFlight then
      { s with inFlight := s.inFlight - 1, pending := s.analyzing }
    else s

/-- The scheduler's initial state: not analyzing, nothing queued, no call in
flight. -/
def initLoopState : LoopState := ⟨false, false, 0⟩

/-- States reachable by the running system. -/
inductive LoopReachable : LoopState → Prop
  | init : LoopReachable initLoopState
  | step (e : LoopEvent) {s : LoopState} (h : LoopReachable s) :
      LoopReachable (loopStep e s)

/-! ## Hourly aggregator (`src/lib/sessionAggregator.ts`) -/

/-- One hour in milliseconds (`60 * 60 * 1000`). -/
def HOUR_MS : Int := 3600000

/-- `getHourFloor`: zero out minutes/seconds/milliseconds of the wall-clock
time. `off` is the local-time offset from UTC in milliseconds (the source
uses `Date.setMinutes(0,0,0)`, which floors in local time); the result is
again an epoch timestamp. -/
def getHourFloor (off t : Int) : Int := t - (t + off).emod HOUR_MS

/-- Aggregator state: the persisted `aggregator_lastProcessedHour` watermark
(`null` when never set) and the hours passed to `aggregateHourlyData`, in
call order. -/
structure AggregatorState where
  lastProcessedHour : Option Int
  aggregatedHours : List Int
  deriving DecidableEq, Repr

/-- The `while (hour < currentHour)` loop of `checkAndTriggerAggregation`:
aggregate each missed hour, stepping by one hour. -/
def aggregateMissedHours (hour target : Int) : List Int :=
  if hour < target then hour :: aggregateMissedHours (hour + HOUR_MS) target
  else []
  termination_by (target - hour).toNat
  decreasing_by
    simp only [HOUR_MS]
    omega

/-- `checkAndTriggerAggregation`: initialize the watermark on first run
without aggregating; on hour rollover aggregate every missed hour from the
watermark (inclusive) up to the current hour floor (exclusive), then advance
the watermark. -/
def checkAndTriggerAggregation (off now : Int) (st : AggregatorState) :
    AggregatorState :=
  let currentHour := getHourFloor off now
  match st.lastProcessedHour with
  | none => { st with lastProcessedHour := some currentHour }
  | some lastProcessed =>
    if lastProcessed < currentHour then
      { lastProcessedHour := some currentHour
        aggregatedHours := st.aggregatedHours ++
          aggregateMissedHours lastProcessed currentHour }
    else st

/-! ### Pure aggregation helpers (`computeMode`, `buildFashionFrequencyMap`,
`buildSummarizedSession`) -/

/-- `Map.get(k)` on an insertion-ordered string-count map. -/
def mapGet (m : List (String × Nat)) (k : String) : Option Nat :=
  (m.find? fun p => p.1 = k).map (·.2)

/-- `Map.set(k, v)` / `freq[k] = v`: overwrite in place, or append a new key
in insertion order. -/
def mapSet (m : List (String × Nat)) (k : String) (v : Nat) :
    List (String × Nat) :=
  if (m.find? fun p => p.1 = k).isSome then
    m.map fun p => if p.1 = k then (k, v) else p
  else m ++ [(k, v)]

/-- `computeMode`: most frequent value, first occurrence winning ties (a new
mode is adopted only on a strictly greater count); `"unknown"` on an empty
list. -/
def computeMode (values : List String) : String :=
  match values with
  | [] => "unknown"
  | v₀ :: _ =>
    (values.foldl
      (fun acc v =>
        let count := (mapGet acc.1 v).getD 0 + 1
        let counts := mapSet acc.1 v count
        if acc.2.1 < count then (counts, count, v) else (counts, acc.2.1, acc.2.2))
      ([], 0, v₀)).2.2

/-- Splitting one fashion value on `/[,\/\s]+/`, trimming, lowercasing and
dropping empty tokens. -/
def fashionTerms (raw : String) : List String :=
  ((raw.split fun c => c = ',' || c = '/' || c.isWhitespace).map
    fun t => t.trim.toLower).filter fun t => 0 < t.length

/-- `buildFashionFrequencyMap`: token → occurrence count across all events. -/
def buildFashionFrequencyMap (fashionValues : List String) :
    List (String × Nat) :=
  fashionValues.foldl
    (fun freq raw =>
      (fashionTerms raw).foldl
        (fun freq term => mapSet freq term ((mapGet freq term).getD 0 + 1))
        freq)
    []

/-- A successfully parsed event payload (`ParsedEvent`); only the fields the
aggregator reads are modelled. -/
structure ParsedEvent where
  age : Option String
  sex : Option String
  fashion : Option String
  deriving DecidableEq, Repr

/-- `SummarizedSession` from `src/lib/dexieDb.ts`. `fashion_style` is kept
as the frequency map itself (the source stores its JSON encoding). -/
structure SummarizedSession where
  sessionId : String
  timestamp : Int
  duration : Int
  gender : String
  age_group : String
  fashion_style : List (String × Nat)
  deriving DecidableEq, Repr

/-- `Math.round(x)`: round half toward positive infinity. -/
def jsRound (x : ℚ) : Int := ⌊x + 1/2⌋

/-- `buildSummarizedSession`, parametrized by the JSON parser
`parseEventResult` (`JSON.parse` is external; `none` models a parse
failure, which drops the event). -/
def buildSummarizedSession (parse : String → Option ParsedEvent)
    (session : UserSession) : SummarizedSession :=
  let parsed := session.events.filterMap fun e => parse e.result
  let ages := parsed.filterMap (·.age)
  let sexes := parsed.filterMap (·.sex)
  let fashions := parsed.filterMap (·.fashion)
  { sessionId := session.sessionId
    timestamp := session.firstSeen
    duration := jsRound (((session.lastSeen - session.firstSeen : Int) : ℚ) / 1000)
    gender := computeMode sexes
    age_group := computeMode ages
    fashion_style := buildFashionFrequencyMap fashions }

/-- `aggregateHourlyData`, modelled on the summaries it bulk-writes: nothing
when the hour has no sessions or when every session has no events, else one
summary per session that has at least one event. The input list stands for
`getSessionsByHour(targetHourTimestamp)`. -/
def aggregateHourlyData (parse : String → Option ParsedEvent)
    (sessions : List UserSession) : List SummarizedSession :=
  if sessions.length = 0 then []
  else
    let validSessions := sessions.filter fun s => 0 < s.events.length
    if validSessions.length = 0 then []
    else validSessions.map (buildSummarizedSession parse)

/-- The chunked write loop of `aggregateAllData` (`CHUNK_SIZE = 50`),
returning all summaries written across chunks in order. -/
def chunkedSummaries (parse : String → Option ParsedEvent)
    (valid : List UserSession) : List SummarizedSession :=
  if valid.length = 0 then []
  else (valid.take 50).map (buildSummarizedSession parse) ++
    chunkedSummaries parse (valid.drop 50)
  termination_by valid.length
  decreasing_by
    rename_i h
    simp only [List.length_drop]
    omega

/-- `aggregateAllData`, modelled on the summaries it bulk-writes. -/
def aggregateAllData (parse : String → Option ParsedEvent)
    (allSessions : List UserSession) : List SummarizedSession :=
  let validSessions := allSessions.filter fun s => 0 < s.events.length
  if validSessions.length = 0 then []
  else chunkedSummaries parse validSessions

/-- Inductive invariant of the analysis-loop scheduler: at most one call is
outstanding; while a call is outstanding no cycle is queued and the loop is
analyzing; a queued cycle implies the loop is analyzing. -/
def LoopInv (s : LoopState) : Prop :=
  s.inFlight ≤ 1 ∧
    (s.inFlight = 1 → s.pending = false ∧ s.analyzing = true) ∧
    (s.pending = true → s.analyzing = true)

/-! Basic geometric facts about the intersection quantities. -/

theorem interW_nonneg (a b : Box) : 0 ≤ interW a b := le_max_left 0 _

theorem interH_nonneg (a b : Box) : 0 ≤ interH a b := le_max_left 0 _

theorem interArea_nonneg (a b : Box) : 0 ≤ interArea a b :=
  mul_nonneg (interW_nonneg a b) (interH_nonneg a b)

theorem interW_comm (a b : Box) : interW a b = interW b a := by
  unfold interW
  rw [min_comm, max_comm a.x b.x]

theorem interH_comm (a b : Box) : interH a b = interH b a := by
  unfold interH
  rw [min_comm, max_comm a.y b.y]

theorem interArea_comm (a b : Box) : interArea a b = interArea b a := by
  unfold interArea
  rw [interW_comm, interH_comm]

theorem unionArea_comm (a b : Box) : unionArea a b = unionArea b a := by
  unfold unionArea
  rw [interArea_comm]
  ring

/-- If the clamped intersection width is positive, both widths are positive
and bound it. -/
theorem interW_pos_facts (a b : Box) (h : 0 < interW a b) :
    0 < a.w ∧ 0 < b.w ∧ interW a b ≤ a.w ∧ interW a b ≤ b.w := by
  unfold interW at *
  rcases le_or_lt (min (a.x + a.w) (b.x + b.w) - max a.x b.x) 0 with hle | hlt
  · rw [max_eq_left hle] at h
    exact absurd h (lt_irrefl 0)
  · rw [max_eq_right hlt.le] at *
    have h1 : max a.x b.x < min (a.x + a.w) (b.x + b.w) := by linarith
    have ha : a.x < a.x + a.w := lt_of_le_of_lt (le_max_left _ _)
      (lt_of_lt_of_le h1 (min_le_left _ _))
    have hb : b.x < b.x + b.w := lt_of_le_of_lt (le_max_right _ _)
      (lt_of_lt_of_le h1 (min_le_right _ _))
    refine ⟨by linarith, by linarith, ?_, ?_⟩
    · have := le_max_left a.x b.x
      have := min_le_left (a.x + a.w) (b.x + b.w)
      linarith
    · have := le_max_right a.x b.x
      have := min_le_right (a.x + a.w) (b.x + b.w)
      linarith

theorem interH_pos_facts (a b : Box) (h : 0 < interH a b) :
    0 < a.h ∧ 0 < b.h ∧ interH a b ≤ a.h ∧ interH a b ≤ b.h := by
  unfold interH at *
  rcases le_or_lt (min (a.y + a.h) (b.y + b.h) - max a.y b.y) 0 with hle | hlt
  · rw [max_eq_left hle] at h
    exact absurd h (lt_irrefl 0)
  · rw [max_eq_right hlt.le] at *
    have h1 : max a.y b.y < min (a.y + a.h) (b.y + b.h) := by linarith
    have ha : a.y < a.y + a.h := lt_of_le_of_lt (le_max_left _ _)
      (lt_of_lt_of_le h1 (min_le_left _ _))
    have hb : b.y < b.y + b.h := lt_of_le_of_lt (le_max_right _ _)
      (lt_of_lt_of_le h1 (min_le_right _ _))
    refine ⟨by linarith, by linarith, ?_, ?_⟩
    · have := le_max_left a.y b.y
      have := min_le_left (a.y + a.h) (b.y + b.h)
      linarith
    · have := le_max_right a.y b.y
      have := min_le_right (a.y + a.h) (b.y + b.h)
      linarith

/-- Core dichotomy: either the intersection area is zero, or it is positive
and bounded by both box areas (which are then positive). -/
theorem interArea_dichotomy (a b : Box) :
    interArea a b = 0 ∨
      (0 < interArea a b ∧ interArea a b ≤ a.w * a.h ∧ interArea a b ≤ b.w * b.h ∧
        0 < a.w * a.h ∧ 0 < b.w * b.h) := by
  rcases eq_or_lt_of_le (interArea_nonneg a b) with h0 | hpos
  · exact Or.inl h0.symm
  · right
    have hW : 0 < interW a b := by
      rcases eq_or_lt_of_le (interW_nonneg a b) with hw0 | hw
      · exfalso
        have : interArea a b = 0 := by
          unfold interArea
          rw [← hw0, zero_mul]
        exact absurd this (ne_of_gt hpos)
      · exact hw
    have hH : 0 < interH a b := by
      rcases eq_or_lt_of_le (interH_nonneg a b) with hh0 | hh
      · exfalso
        have : interArea a b = 0 := by
          unfold interArea
          rw [← hh0, mul_zero]
        exact absurd this (ne_of_gt hpos)
      · exact hh
    obtain ⟨haw, hbw, hWa, hWb⟩ := interW_pos_facts a b hW
    obtain ⟨hah, hbh, hHa, hHb⟩ := interH_pos_facts a b hH
    refine ⟨hpos, ?_, ?_, mul_pos haw hah, mul_pos hbw hbh⟩
    · exact mul_le_mul hWa hHa hH.le haw.le
    · exact mul_le_mul hWb hHb hH.le hbw.le

theorem calculateIoU_nonneg (a b : Box) : 0 ≤ calculateIoU a b := by
  unfold calculateIoU
  split
  · exact le_refl 0
  · rcases interArea_dichotomy a b with h0 | ⟨hpos, _, _, hA, hB⟩
    · rw [h0, zero_div]
    · have hu : 0 < unionArea a b := by
        unfold unionArea
        rcases interArea_dichotomy a b with h0 | ⟨_, hle, _, _, _⟩
        · linarith
        · linarith
      positivity

theorem calculateIoU_le_one (a b : Box) : calculateIoU a b ≤ 1 := by
  unfold calculateIoU
  split
  · exact zero_le_one
  · case _ h =>
    rcases interArea_dichotomy a b with h0 | ⟨hpos, hleA, hleB, hA, hB⟩
    · rw [h0, zero_div]
      exact zero_le_one
    · have hu : 0 < unionArea a b := by
        unfold unionArea
        linarith
      rw [div_le_one hu]
      unfold unionArea
      linarith

theorem calculateIoU_comm (a b : Box) : calculateIoU a b = calculateIoU b a := by
  unfold calculateIoU
  rw [unionArea_comm, interArea_comm]

theorem calculateIoU_union_zero (a b : Box) (h : unionArea a b = 0) :
    calculateIoU a b = 0 := by
  unfold calculateIoU
  rw [if_pos h]

/-- A box identical to itself with positive width and height yields IoU 1. -/
theorem calculateIoU_self (a : Box) (hw : 0 < a.w) (hh : 0 < a.h) :
    calculateIoU a a = 1 := by
  have hW : interW a a = a.w := by
    unfold interW
    rw [min_self, max_self]
    have : a.x + a.w - a.x = a.w := by ring
    rw [this, max_eq_right hw.le]
  have hH : interH a a = a.h := by
    unfold interH
    rw [min_self, max_self]
    have : a.y + a.h - a.y = a.h := by ring
    rw [this, max_eq_right hh.le]
  have hI : interArea a a = a.w * a.h := by
    unfold interArea
    rw [hW, hH]
  have hU : unionArea a a = a.w * a.h := by
    unfold unionArea
    rw [hI]
    ring
  unfold calculateIoU
  rw [hU, hI, if_neg (ne_of_gt (mul_pos hw hh))]
  exact div_self (ne_of_gt (mul_pos hw hh))

/-- Disjoint boxes (separated along one axis) have zero intersection area. -/
theorem interArea_of_disjoint (a b : Box)
    (h : a.x + a.w ≤ b.x ∨ b.x + b.w ≤ a.x ∨ a.y + a.h ≤ b.y ∨ b.y + b.h ≤ a.y) :
    interArea a b = 0 := by
  have hx : (a.x + a.w ≤ b.x ∨ b.x + b.w ≤ a.x) → interW a b = 0 := by
    intro hc
    unfold interW
    rcases hc with hc | hc
    · have h1 : min (a.x + a.w) (b.x + b.w) ≤ a.x + a.w := min_le_left _ _
      have h2 : b.x ≤ max a.x b.x := le_max_right _ _
      exact max_eq_left (by linarith)
    · have h1 : min (a.x + a.w) (b.x + b.w) ≤ b.x + b.w := min_le_right _ _
      have h2 : a.x ≤ max a.x b.x := le_max_left _ _
      exact max_eq_left (by linarith)
  have hy : (a.y + a.h ≤ b.y ∨ b.y + b.h ≤ a.y) → interH a b = 0 := by
    intro hc
    unfold interH
    rcases hc with hc | hc
    · have h1 : min (a.y + a.h) (b.y + b.h) ≤ a.y + a.h := min_le_left _ _
      have h2 : b.y ≤ max a.y b.y := le_max_right _ _
      exact max_eq_left (by linarith)
    · have h1 : min (a.y + a.h) (b.y + b.h) ≤ b.y + b.h := min_le_right _ _
      have h2 : a.y ≤ max a.y b.y := le_max_left _ _
      exact max_eq_left (by linarith)
  unfold interArea
  rcases h with hc | hc | hc | hc
  · rw [hx (Or.inl hc), zero_mul]
  · rw [hx (Or.inr hc), zero_mul]
  · rw [hy (Or.inl hc), mul_zero]
  · rw [hy (Or.inr hc), mul_zero]

theorem calculateIoU_of_disjoint (a b : Box)
    (h : a.x + a.w ≤ b.x ∨ b.x + b.w ≤ a.x ∨ a.y + a.h ≤ b.y ∨ b.y + b.h ≤ a.y) :
    calculateIoU a b = 0 := by
  unfold calculateIoU
  split
  · rfl
  · rw [interArea_of_disjoint a b h, zero_div]

/-- C2 counterexample: the claim asserts both "identical boxes yield 1" and
"zero union yields 0" for every pair of boxes `(x, y, w, h)`; the degenerate
box `(0,0,0,0)` paired with itself has zero union, and `calculateIoU`
returns `0`, not `1`, refuting the "identical boxes yield 1" clause as
universally stated. -/
theorem calculateIoU_identical_degenerate :
    calculateIoU ⟨0, 0, 0, 0⟩ ⟨0, 0, 0, 0⟩ = 0 ∧ (0 : ℚ) ≠ 1 := by
  constructor
  · norm_num [calculateIoU, unionArea, interArea, interW, interH]
  · norm_num

/-- C2 (amended): `calculateIoU` is symmetric and always in `[0,1]`; a zero
union area yields 0 (not an error); otherwise it returns intersection area
divided by union area; identical boxes of positive width and height yield 1
(a degenerate identical box falls under the zero-union rule instead); and
boxes separated along an axis yield exactly 0. -/
theorem calculateIoU_contract (a b : Box) :
    calculateIoU a b = calculateIoU b a ∧
    0 ≤ calculateIoU a b ∧ calculateIoU a b ≤ 1 ∧
    (unionArea a b = 0 → calculateIoU a b = 0) ∧
    (unionArea a b ≠ 0 → calculateIoU a b = interArea a b / unionArea a b) ∧
    (a = b → 0 < a.w → 0 < a.h → calculateIoU a b = 1) ∧
    ((a.x + a.w ≤ b.x ∨ b.x + b.w ≤ a.x ∨ a.y + a.h ≤ b.y ∨ b.y + b.h ≤ a.y) →
      calculateIoU a b = 0) := by
  refine ⟨calculateIoU_comm a b, calculateIoU_nonneg a b, calculateIoU_le_one a b,
    calculateIoU_union_zero a b, ?_, ?_, calculateIoU_of_disjoint a b⟩
  · intro h
    unfold calculateIoU
    rw [if_neg h]
  · intro hab hw hh
    rw [← hab]
    exact calculateIoU_self a hw hh

/-- Witness for `calculateIoU_contract` at concrete boxes: symmetry on the
spec's worked example `A=(0,0,2,2)`, `B=(1,0,2,2)`; IoU 1 on an identical
unit box; IoU 0 on disjoint boxes; 0 on a zero-union degenerate pair. -/
theorem calculateIoU_contract_witness :
    calculateIoU ⟨0, 0, 2, 2⟩ ⟨1, 0, 2, 2⟩ = calculateIoU ⟨1, 0, 2, 2⟩ ⟨0, 0, 2, 2⟩ ∧
    calculateIoU ⟨0, 0, 1, 1⟩ ⟨0, 0, 1, 1⟩ = 1 ∧
    calculateIoU ⟨0, 0, 1, 1⟩ ⟨5, 5, 1, 1⟩ = 0 ∧
    calculateIoU ⟨0, 0, 0, 0⟩ ⟨0, 0, 0, 0⟩ = 0 := by
  refine ⟨(calculateIoU_contract _ _).1,
    (calculateIoU_contract ⟨0, 0, 1, 1⟩ ⟨0, 0, 1, 1⟩).2.2.2.2.2.1 rfl (by norm_num) (by norm_num),
    (calculateIoU_contract ⟨0, 0, 1, 1⟩ ⟨5, 5, 1, 1⟩).2.2.2.2.2.2 (Or.inl (by norm_num)),
    (calculateIoU_contract ⟨0, 0, 0, 0⟩ ⟨0, 0, 0, 0⟩).2.2.2.1 (by
      norm_num [unionArea, interArea, interW, interH])⟩

/-- C4: after a `processFrame` call at time `now`, a tracked identity is in
the live set (`localTracks`) if and only if it survived to the
post-association state and `now - lastSeen < gracePeriodMs`; pruning depends
only on `lastSeen`, never on confirmation state. -/
theorem processFrame_live_iff (gen : Nat → String) (dets : List Det) (now : Int)
    (st : TrackerState) (t : LocalTrack) :
    t ∈ (processFrame gen dets now st).tracks ↔
      t ∈ (matchPhase gen dets now st).1 ∧
        now - t.lastSeen < TRACKER_CONFIG.gracePeriodMs := by
  simp [processFrame, List.mem_filter, keepTrack]

/-- C9: `processFrame` does not enforce one-to-one association. With a single
live track and two detections both overlapping it, both detections
independently select the same track: its `consecutiveFrames` is incremented
twice in one call (1 → 3, confirming it in a single frame) and its box and
score are overwritten by the later detection. -/
theorem processFrame_double_match :
    processFrame (fun _ => "Z")
        [⟨⟨0, 0, 1/2, 1/2⟩, 9/10⟩, ⟨⟨1/100, 0, 1/2, 1/2⟩, 9/10⟩] 10
        ⟨[⟨"A", ⟨0, 0, 1/2, 1/2⟩, 9/10, 0, 0, false, 1, false⟩], 5⟩ =
      ⟨[⟨"A", ⟨1/100, 0, 1/2, 1/2⟩, 9/10, 0, 10, true, 1 + 2, true⟩], 5⟩ := by
  norm_num [processFrame, matchPhase, filterDets, resetMatched, applyDet, findBest,
    createBranch, matchUpdate, keepTrack, calculateIoU, unionArea, interArea,
    interW, interH, TRACKER_CONFIG, List.filter, List.foldl, List.enum]
theorem trackLe_refl (t : LocalTrack) : TrackLe t t :=
  ⟨rfl, le_refl _, fun h => h, fun h => Or.inl h⟩

theorem trackLe_trans {t t' t'' : LocalTrack} (h1 : TrackLe t t') (h2 : TrackLe t' t'') :
    TrackLe t t'' := by
  obtain ⟨hid1, hcf1, hc1, hb1⟩ := h1
  obtain ⟨hid2, hcf2, hc2, hb2⟩ := h2
  refine ⟨hid1.trans hid2, hcf1.trans hcf2, fun h => hc2 (hc1 h), fun h => ?_⟩
  rcases hb2 h with h' | h'
  · rcases hb1 h' with h'' | h''
    · exact Or.inl h''
    · exact Or.inr (le_trans h'' hcf2)
  · exact Or.inr h'

theorem trackLe_matchUpdate (t : LocalTrack) (d : Det) (now : Int) :
    TrackLe t (matchUpdate t d now) := by
  refine ⟨rfl, Nat.le_succ _, ?_, ?_⟩
  · intro h
    unfold matchUpdate
    dsimp only
    split
    · rfl
    · exact h
  · intro h
    unfold matchUpdate at h
    dsimp only at h
    by_cases hcf : TRACKER_CONFIG.confirmationFrames ≤ t.consecutiveFrames + 1
    · exact Or.inr hcf
    · rw [if_neg hcf] at h
      exact Or.inl h

theorem simFrom_refl (gen : Nat → String) (ts : List LocalTrack) (k : Nat) :
    SimFrom gen ts k ts k :=
  fun t' ht' => Or.inl ⟨t', ht', trackLe_refl t'⟩

theorem simFrom_trans {gen : Nat → String} {ts₀ ts₁ ts₂ : List LocalTrack}
    {k₀ k₁ k₂ : Nat} (h01 : SimFrom gen ts₀ k₀ ts₁ k₁)
    (h12 : SimFrom gen ts₁ k₁ ts₂ k₂) (hk01 : k₀ ≤ k₁) (hk12 : k₁ ≤ k₂) :
    SimFrom gen ts₀ k₀ ts₂ k₂ := by
  intro t'' ht''
  rcases h12 t'' ht'' with ⟨t', ht', hle⟩ | ⟨⟨j, hj1, hj2, hjid⟩, hconf⟩
  · rcases h01 t' ht' with ⟨t, ht, hle'⟩ | ⟨⟨j, hj1, hj2, hjid⟩, hconf⟩
    · exact Or.inl ⟨t, ht, trackLe_trans hle' hle⟩
    · refine Or.inr ⟨⟨j, hj1, lt_of_lt_of_le hj2 hk12, hle.1 ▸ hjid⟩, fun h => ?_⟩
      rcases hle.2.2.2 h with h' | h'
      · exact le_trans (hconf h') hle.2.1
      · exact h'
  · exact Or.inr ⟨⟨j, le_trans hk01 hj1, hj2, hjid⟩, hconf⟩

theorem simFrom_of_subset {gen : Nat → String} {ts₀ ts₁ ts₂ : List LocalTrack}
    {k₀ k₁ : Nat} (h : SimFrom gen ts₀ k₀ ts₁ k₁) (hsub : ∀ t ∈ ts₂, t ∈ ts₁) :
    SimFrom gen ts₀ k₀ ts₂ k₁ :=
  fun t' ht' => h t' (hsub t' ht')

theorem simFrom_resetMatched (gen : Nat → String) (ts : List LocalTrack) (k : Nat) :
    SimFrom gen ts k (resetMatched ts) k := by
  intro t' ht'
  unfold resetMatched at ht'
  rcases List.mem_map.mp ht' with ⟨t, ht, rfl⟩
  exact Or.inl ⟨t, ht, rfl, le_refl _, fun h => h, fun h => Or.inl h⟩

theorem simFrom_createBranch (gen : Nat → String) (ts : List LocalTrack) (k : Nat)
    (d : Det) (now : Int) :
    SimFrom gen ts k (createBranch ts k gen d now).1 (createBranch ts k gen d now).2 := by
  unfold createBranch
  split
  · exact simFrom_refl gen ts k
  · intro t' ht'
    rcases List.mem_append.mp ht' with h | h
    · exact Or.inl ⟨t', h, trackLe_refl t'⟩
    · rcases List.mem_singleton.mp h with rfl
      refine Or.inr ⟨⟨k, le_refl k, Nat.lt_succ_self k, rfl⟩, fun hc => ?_⟩
      simp [newTrack] at hc

theorem createBranch_k_le (gen : Nat → String) (ts : List LocalTrack) (k : Nat)
    (d : Det) (now : Int) : k ≤ (createBranch ts k gen d now).2 := by
  unfold createBranch
  split
  · exact le_refl k
  · exact Nat.le_succ k

theorem applyDet_sim (now : Int) (gen : Nat → String) (p : List LocalTrack × Nat)
    (d : Det) :
    SimFrom gen p.1 p.2 (applyDet now gen p d).1 (applyDet now gen p d).2 := by
  unfold applyDet
  dsimp only
  rcases h : (findBest p.1 d).2 with _ | i
  · exact simFrom_createBranch gen p.1 p.2 d now
  · by_cases hio : TRACKER_CONFIG.iouThreshold < (findBest p.1 d).1
    · simp only [if_pos hio]
      rcases hget : p.1.get? i with _ | t
      · exact simFrom_refl gen p.1 p.2
      · intro t' ht'
        rcases List.mem_or_eq_of_mem_set ht' with hmem | rfl
        · exact Or.inl ⟨t', hmem, trackLe_refl t'⟩
        · exact Or.inl ⟨t, List.get?_mem hget, trackLe_matchUpdate t d now⟩
    · simp only [if_neg hio]
      exact simFrom_createBranch gen p.1 p.2 d now

theorem applyDet_k_le (now : Int) (gen : Nat → String) (p : List LocalTrack × Nat)
    (d : Det) : p.2 ≤ (applyDet now gen p d).2 := by
  unfold applyDet
  dsimp only
  rcases h : (findBest p.1 d).2 with _ | i
  · exact createBranch_k_le gen p.1 p.2 d now
  · by_cases hio : TRACKER_CONFIG.iouThreshold < (findBest p.1 d).1
    · simp only [if_pos hio]
      rcases hget : p.1.get? i with _ | t
      · exact le_refl _
      · exact le_refl _
    · simp only [if_neg hio]
      exact createBranch_k_le gen p.1 p.2 d now

theorem foldl_applyDet_sim (now : Int) (gen : Nat → String) (dets : List Det) :
    ∀ p : List LocalTrack × Nat,
      SimFrom gen p.1 p.2 (dets.foldl (applyDet now gen) p).1
        (dets.foldl (applyDet now gen) p).2 ∧
      p.2 ≤ (dets.foldl (applyDet now gen) p).2 := by
  induction dets with
  | nil => exact fun p => ⟨simFrom_refl gen p.1 p.2, le_refl _⟩
  | cons d dets ih =>
    intro p
    have h1 := applyDet_sim now gen p d
    have hk1 := applyDet_k_le now gen p d
    have h2 := ih (applyDet now gen p d)
    refine ⟨?_, le_trans hk1 h2.2⟩
    exact simFrom_trans h1 h2.1 hk1 h2.2

theorem processFrame_sim (gen : Nat → String) (dets : List Det) (now : Int)
    (st : TrackerState) :
    SimFrom gen st.tracks st.nextId (processFrame gen dets now st).tracks
        (processFrame gen dets now st).nextId ∧
      st.nextId ≤ (processFrame gen dets now st).nextId := by
  have hreset := simFrom_resetMatched gen st.tracks st.nextId
  have hfold := foldl_applyDet_sim now gen (filterDets dets)
    (resetMatched st.tracks, st.nextId)
  constructor
  · refine simFrom_of_subset
      (simFrom_trans hreset hfold.1 (le_refl _) hfold.2) ?_
    intro t ht
    exact (List.mem_filter.mp ht).1
  · exact hfold.2

/-- Setting index `i` to an element with the same id leaves the id list
unchanged. -/
theorem map_id_set (ts : List LocalTrack) (i : Nat) (t u : LocalTrack)
    (hget : ts.get? i = some t) (hid : u.id = t.id) :
    (ts.set i u).map LocalTrack.id = ts.map LocalTrack.id := by
  induction ts generalizing i with
  | nil => simp at hget
  | cons hd tl ih =>
    cases i with
    | zero =>
      simp only [List.get?] at hget
      injection hget with hget
      subst hget
      simp [List.set, hid]
    | succ n =>
      simp only [List.get?] at hget
      simp [List.set, ih n hget]

theorem pairOk_createBranch {gen : Nat → String} (hInj : Function.Injective gen)
    {ts : List LocalTrack} {k : Nat} (h : PairOk gen (ts, k)) (d : Det) (now : Int) :
    PairOk gen (createBranch ts k gen d now) := by
  unfold createBranch
  split
  · exact h
  · obtain ⟨hnd, hprov⟩ := h
    constructor
    · rw [List.map_append]
      refine List.Nodup.append hnd (List.nodup_singleton _) ?_
      intro a ha hb
      simp only [List.map_cons, List.map_nil, List.mem_singleton] at hb
      rcases List.mem_map.mp ha with ⟨t, ht, rfl⟩
      rcases hprov t ht with ⟨j, hj, hjid⟩
      rw [hb] at hjid
      simp only [newTrack] at hjid
      exact absurd (hInj hjid) (Ne.symm (Nat.ne_of_lt hj))
    · intro t ht
      rcases List.mem_append.mp ht with h' | h'
      · rcases hprov t h' with ⟨j, hj, hjid⟩
        exact ⟨j, Nat.lt_succ_of_lt hj, hjid⟩
      · rcases List.mem_singleton.mp h' with rfl
        exact ⟨k, Nat.lt_succ_self k, rfl⟩

theorem applyDet_pairOk {gen : Nat → String} (hInj : Function.Injective gen)
    (now : Int) {p : List LocalTrack × Nat} (h : PairOk gen p) (d : Det) :
    PairOk gen (applyDet now gen p d) := by
  unfold applyDet
  dsimp only
  rcases hfb : (findBest p.1 d).2 with _ | i
  · exact pairOk_createBranch hInj h d now
  · by_cases hio : TRACKER_CONFIG.iouThreshold < (findBest p.1 d).1
    · simp only [if_pos hio]
      rcases hget : p.1.get? i with _ | t
      · exact h
      · obtain ⟨hnd, hprov⟩ := h
        have hids : ((p.1.set i (matchUpdate t d now)).map LocalTrack.id) =
            p.1.map LocalTrack.id := map_id_set p.1 i t (matchUpdate t d now) hget rfl
        constructor
        · rw [hids]
          exact hnd
        · intro t' ht'
          rcases List.mem_or_eq_of_mem_set ht' with hmem | rfl
          · exact hprov t' hmem
          · exact hprov t (List.get?_mem hget)
    · simp only [if_neg hio]
      exact pairOk_createBranch hInj h d now

theorem foldl_applyDet_pairOk {gen : Nat → String} (hInj : Function.Injective gen)
    (now : Int) (dets : List Det) :
    ∀ p : List LocalTrack × Nat, PairOk gen p →
      PairOk gen (dets.foldl (applyDet now gen) p) := by
  induction dets with
  | nil => exact fun p h => h
  | cons d dets ih =>
    intro p h
    exact ih (applyDet now gen p d) (applyDet_pairOk hInj now h d)

theorem resetMatched_pairOk {gen : Nat → String} {ts : List LocalTrack} {k : Nat}
    (h : PairOk gen (ts, k)) : PairOk gen (resetMatched ts, k) := by
  obtain ⟨hnd, hprov⟩ := h
  constructor
  · have : (resetMatched ts).map LocalTrack.id = ts.map LocalTrack.id := by
      unfold resetMatched
      rw [List.map_map]
      rfl
    rw [this]
    exact hnd
  · intro t ht
    unfold resetMatched at ht
    rcases List.mem_map.mp ht with ⟨t₀, ht₀, rfl⟩
    exact hprov t₀ ht₀

/-- `processFrame` preserves the id invariant: ids stay pairwise distinct and
come from the id supply below the (monotone) counter. -/
theorem processFrame_idsOk {gen : Nat → String} (hInj : Function.Injective gen)
    (dets : List Det) (now : Int) {st : TrackerState} (h : IdsOk gen st) :
    IdsOk gen (processFrame gen dets now st) := by
  have hfold := foldl_applyDet_pairOk hInj now (filterDets dets)
    (resetMatched st.tracks, st.nextId) (resetMatched_pairOk h)
  obtain ⟨hnd, hprov⟩ := hfold
  constructor
  · exact List.Nodup.sublist (((List.filter_sublist _).map LocalTrack.id)) hnd
  · intro t ht
    exact hprov t (List.mem_filter.mp ht).1

/-- Single-frame persistence: if every live track with id `u` is confirmed
before the frame (where `u` was drawn from the supply below the counter),
then every live track with id `u` is confirmed after the frame. -/
theorem processFrame_id_confirmed {gen : Nat → String} (hInj : Function.Injective gen)
    (dets : List Det) (now : Int) {st : TrackerState} {u : String}
    (hu : ∃ j, j < st.nextId ∧ u = gen j)
    (hpre : ∀ t ∈ st.tracks, t.id = u → t.isConfirmed = true) :
    ∀ t' ∈ (processFrame gen dets now st).tracks, t'.id = u →
      t'.isConfirmed = true := by
  intro t' ht' hid
  rcases (processFrame_sim gen dets now st).1 t' ht' with ⟨t, ht, hle⟩ | hnew
  · exact hle.2.2.1 (hpre t ht (hle.1.trans hid))
  · obtain ⟨⟨j, hj1, _, hjid⟩, _⟩ := hnew
    obtain ⟨j₀, hj₀, rfl⟩ := hu
    rw [hid] at hjid
    have : j = j₀ := hInj hjid.symm
    omega

/-- Single-frame preservation of the confirmation bar. -/
theorem processFrame_confOk (gen : Nat → String) (dets : List Det) (now : Int)
    {st : TrackerState} (h : ConfOk st) :
    ConfOk (processFrame gen dets now st) := by
  intro t' ht' hc
  rcases (processFrame_sim gen dets now st).1 t' ht' with ⟨t, ht, hle⟩ | hnew
  · rcases hle.2.2.2 hc with h' | h'
    · exact le_trans (h t ht h') hle.2.1
    · exact h'
  · exact hnew.2 hc

theorem runFrames_confOk (gen : Nat → String) (frames : List (List Det × Int))
    {st : TrackerState} (h : ConfOk st) : ConfOk (runFrames gen frames st) := by
  induction frames generalizing st with
  | nil => exact h
  | cons f frames ih => exact ih (processFrame_confOk gen f.1 f.2 h)

theorem runFrames_nextId_le (gen : Nat → String) (frames : List (List Det × Int))
    (st : TrackerState) : st.nextId ≤ (runFrames gen frames st).nextId := by
  induction frames generalizing st with
  | nil => exact le_refl _
  | cons f frames ih =>
    exact le_trans (processFrame_sim gen f.1 f.2 st).2 (ih (processFrame gen f.1 f.2 st))

theorem runFrames_idsOk {gen : Nat → String} (hInj : Function.Injective gen)
    (frames : List (List Det × Int)) {st : TrackerState} (h : IdsOk gen st) :
    IdsOk gen (runFrames gen frames st) := by
  induction frames generalizing st with
  | nil => exact h
  | cons f frames ih => exact ih (processFrame_idsOk hInj f.1 f.2 h)

theorem runFrames_id_confirmed {gen : Nat → String} (hInj : Function.Injective gen)
    (frames : List (List Det × Int)) {st : TrackerState} {u : String}
    (hu : ∃ j, j < st.nextId ∧ u = gen j)
    (hpre : ∀ t ∈ st.tracks, t.id = u → t.isConfirmed = true) :
    ∀ t' ∈ (runFrames gen frames st).tracks, t'.id = u → t'.isConfirmed = true := by
  induction frames generalizing st with
  | nil => exact hpre
  | cons f frames ih =>
    obtain ⟨j, hj, rfl⟩ := hu
    exact ih
      ⟨j, lt_of_lt_of_le hj (processFrame_sim gen f.1 f.2 st).2, rfl⟩
      (processFrame_id_confirmed hInj f.1 f.2 ⟨j, hj, rfl⟩ hpre)

/-- C5: confirmation hysteresis. (i) Newly created identities start with
`consecutiveFrames = 1` and `isConfirmed = false`. (ii) Across any sequence
of `processFrame` calls, a confirmed track has always accumulated at least
`confirmationFrames` consecutive matches — `isConfirmed` becomes true only
once the counter reaches the confirmation bar. (iii) Once a tracked identity
is confirmed, it never reverts to unconfirmed for as long as a track with
its id remains in the live set, across any sequence of frames (the id
supply producing fresh, pairwise-distinct ids). -/
theorem confirmation_hysteresis (gen : Nat → String) (hInj : Function.Injective gen)
    (st : TrackerState) (frames : List (List Det × Int)) :
    (∀ (i : String) (d : Det) (now : Int),
        (newTrack i d now).consecutiveFrames = 1 ∧ (newTrack i d now).isConfirmed = false) ∧
    (ConfOk st → ConfOk (runFrames gen frames st)) ∧
    (IdsOk gen st → ∀ t ∈ st.tracks, t.isConfirmed = true →
        ∀ t' ∈ (runFrames gen frames st).tracks, t'.id = t.id →
          t'.isConfirmed = true) := by
  refine ⟨fun i d now => ⟨rfl, rfl⟩, runFrames_confOk gen frames, ?_⟩
  intro hids t ht hc
  obtain ⟨j, hj, hjid⟩ := hids.2 t ht
  refine runFrames_id_confirmed hInj frames ⟨j, hj, hjid⟩ ?_
  intro s hs hsid
  have : s = t := List.inj_on_of_nodup_map hids.1 hs ht hsid
  rw [this]
  exact hc
/-- Witness for `confirmation_hysteresis`: a concrete injective id supply, a
concrete state satisfying the invariants, and the persistence conclusion
evaluated after one concrete (empty) frame. -/
theorem confirmation_hysteresis_witness :
    Function.Injective genW ∧ ConfOk stW ∧ IdsOk genW stW ∧
    LocalTrack.isConfirmed ⟨"", ⟨0, 0, 1/2, 1/2⟩, 9/10, 0, 0, false, 3, true⟩ = true := by
  have hInj : Function.Injective genW := by
    intro a b h
    have h2 := congrArg (fun s => s.data.length) h
    simpa [genW] using h2
  have hconf : ConfOk stW := by
    intro t ht hc
    simp only [stW, List.mem_singleton] at ht
    subst ht
    decide
  have hids : IdsOk genW stW := by
    constructor
    · simp [stW]
    · intro t ht
      simp only [stW, List.mem_singleton] at ht
      subst ht
      exact ⟨0, Nat.zero_lt_one, rfl⟩
  refine ⟨hInj, hconf, hids, ?_⟩
  exact (confirmation_hysteresis genW hInj stW [([], 100)]).2.2 hids
    ⟨"", ⟨0, 0, 1/2, 1/2⟩, 9/10, 0, 0, true, 3, true⟩ (List.mem_singleton.mpr rfl) rfl
    ⟨"", ⟨0, 0, 1/2, 1/2⟩, 9/10, 0, 0, false, 3, true⟩ (List.mem_singleton.mpr rfl) rfl
/-! ### C1, C3: session close behaviour -/

/-- At grace expiry the close decision compares `now - startTime`, which
already exceeds the grace period, so the delete branch of
`cleanupStaleSessions` is unreachable: every session reaching the Closed
transition is finalized. -/
theorem closeOp_never_deletes (now : Int) (sd : SessionData)
    (hord : sd.startTime ≤ sd.lastSeen) (hgrace : SESSION_TIMEOUT < now - sd.lastSeen) :
    closeOp now sd = DbOp.endSession sd.sessionId := by
  unfold closeOp
  rw [if_pos]
  unfold MIN_SESSION_DURATION
  unfold SESSION_TIMEOUT at hgrace
  omega

/-- C1: a session whose identity was present for only 100 ms (far below the
1000 ms minimum) reaches grace expiry at `now = 5200` and is finalized
(`endSession`), not deleted — the code compares `now - startTime = 5200 ≥
1000` instead of the session's presence span, so the delete branch never
fires in `cleanupStaleSessions`. -/
theorem cleanupStaleSessions_finalizes_transient :
    cleanupStaleSessions 5200 [] [("u", ⟨"S", 0, 100⟩)] =
      ([], [DbOp.endSession "S"]) ∧
    (100 : Int) - 0 < MIN_SESSION_DURATION := by
  constructor
  · decide
  · decide

/-- C3 counterexample: a session started at `t = 0` whose identity was last
present at `t = 1000` is finalized at `t = 7000` (grace expired); the
recorded row becomes `lastSeen = 7000, duration = 7`, while the wall-clock
span the identity was present is `(1000 - 0)/1000 = 1` second — the claim's
`duration = presence span` fails. -/
theorem finalized_duration_neq_presence_span :
    applyDbOps 7000 (cleanupStaleSessions 7000 [] [("u", ⟨"S", 0, 1000⟩)]).2
        (startSession 0 "S" []) =
      [{ sessionId := "S", firstSeen := 0, lastSeen := 7000, duration := 7,
         events := [] }] ∧
    ((1000 : Int) - 0 : ℚ) / 1000 = 1 ∧ (7 : ℚ) ≠ 1 := by
  refine ⟨?_, by norm_num, by norm_num⟩
  norm_num [applyDbOps, applyDbOp, cleanupStaleSessions, closeOp, startSession,
    endSession, updateSessionHeartbeat, SESSION_TIMEOUT, MIN_SESSION_DURATION,
    List.foldl]

/-- C3 (amended): when a session is finalized at grace expiry, `endSession`
heartbeats the row, so the recorded duration equals
`(closeTime - firstSeen)/1000` — `closeTime` being the moment the cleanup
runs — which exceeds the presence span `(lastSeen - startTime)/1000` by more
than the 5-second grace timeout. -/
theorem finalized_duration_is_close_time (now : Int) (sid : String)
    (db : List UserSession) (sd : SessionData) (s' : UserSession)
    (hmem : s' ∈ endSession now sid db) (hsid : s'.sessionId = sid)
    (hgrace : SESSION_TIMEOUT < now - sd.lastSeen)
    (hfs : s'.firstSeen = sd.startTime) :
    s'.duration = ((now - s'.firstSeen : Int) : ℚ) / 1000 ∧
    ((sd.lastSeen - sd.startTime : Int) : ℚ) / 1000 + 5 < s'.duration := by
  have hdur : s'.duration = ((now - s'.firstSeen : Int) : ℚ) / 1000 := by
    unfold endSession updateSessionHeartbeat at hmem
    rcases List.mem_map.mp hmem with ⟨s, hs, heq⟩
    by_cases hcase : s.sessionId = sid
    · rw [if_pos hcase] at heq
      rw [← heq]
    · rw [if_neg hcase] at heq
      rw [← heq] at hsid
      exact absurd hsid hcase
  refine ⟨hdur, ?_⟩
  rw [hdur, hfs]
  unfold SESSION_TIMEOUT at hgrace
  have hg : ((now : ℚ) - (sd.lastSeen : ℚ)) > 5000 := by
    exact_mod_cast hgrace
  rw [div_add' _ _ _ (by norm_num), div_lt_div_iff₀ (by norm_num) (by norm_num)]
  push_cast
  nlinarith [hg]

/-- Witness for `finalized_duration_is_close_time`: the concrete run of the
counterexample scenario (session open at 0, last present at 1000, finalized
at 7000) satisfies every hypothesis, and the recorded duration is 7 s
against a 1 s presence span. -/
theorem finalized_duration_is_close_time_witness :
    (⟨"S", 0, 7000, 7, []⟩ : UserSession) ∈
        endSession 7000 "S" [⟨"S", 0, 0, 0, []⟩] ∧
    SESSION_TIMEOUT < (7000 : Int) - 1000 ∧
    (7 : ℚ) = ((7000 - (0 : Int) : Int) : ℚ) / 1000 ∧
    (((1000 : Int) - (0 : Int) : Int) : ℚ) / 1000 + 5 < 7 := by
  have hmem : (⟨"S", 0, 7000, 7, []⟩ : UserSession) ∈
      endSession 7000 "S" [⟨"S", 0, 0, 0, []⟩] := by
    norm_num [endSession, updateSessionHeartbeat]
  have h := finalized_duration_is_close_time 7000 "S" [⟨"S", 0, 0, 0, []⟩]
    ⟨"S", 0, 1000⟩ ⟨"S", 0, 7000, 7, []⟩ hmem rfl (by decide) rfl
  exact ⟨hmem, by decide, h.1, h.2⟩

/-! ### C6: inference failure handling -/

/-- C6: if the inference call throws, `analyzeFrameWithNanoStreaming`
resolves with an empty `results` array and the result-logging step appends
nothing to any session row; if its output fails to parse as JSON, the only
result carries `uid = 'raw'`, which matches no open session (track uids are
8-character uppercase ids), so again nothing is appended; in both cases the
session table and the in-memory map are untouched and the loop body reaches
its rescheduling line — the continuation after the call resolves re-arms the
cycle timer whenever the loop is still analyzing. -/
theorem inference_failure_appends_nothing (now : Int)
    (encode : List (String × String) → String)
    (active : List (String × SessionData)) (prompt txt : String)
    (db : List UserSession) (s : LoopState) :
    logResults now encode active prompt
        (nanoResponseResults NanoOutcome.engineFailure) db = db ∧
    (lookupSession active "raw" = none →
      logResults now encode active prompt
        (nanoResponseResults (NanoOutcome.parseFailure txt)) db = db) ∧
    (s.analyzing = true → 0 < s.inFlight →
      (loopStep LoopEvent.callResolve s).pending = true) := by
  refine ⟨rfl, fun hraw => ?_, fun ha hf => ?_⟩
  · simp [logResults, nanoResponseResults, rawFallbackResult, hraw]
  · simp [loopStep, hf, ha]

/-- Witness for `inference_failure_appends_nothing`: a concrete open-session
map keyed by a tracker-style uid (so `'raw'` is absent), a concrete session
table, and a loop state with one call in flight. -/
theorem inference_failure_appends_nothing_witness :
    lookupSession [("ABCD1234", ⟨"S", 0, 0⟩)] "raw" = none ∧
    (true : Bool) = true ∧ 0 < 1 ∧
    logResults 5 (fun _ => "") [("ABCD1234", ⟨"S", 0, 0⟩)] "p"
        (nanoResponseResults (NanoOutcome.parseFailure "x"))
        [⟨"S", 0, 0, 0, []⟩] = [⟨"S", 0, 0, 0, []⟩] ∧
    (loopStep LoopEvent.callResolve ⟨true, false, 1⟩).pending = true := by
  have hraw : lookupSession [("ABCD1234", ⟨"S", 0, 0⟩)] "raw" = none := by decide
  have h := inference_failure_appends_nothing 5 (fun _ => "")
    [("ABCD1234", ⟨"S", 0, 0⟩)] "p" "x" [⟨"S", 0, 0, 0, []⟩] ⟨true, false, 1⟩
  exact ⟨hraw, rfl, Nat.zero_lt_one, h.2.1 hraw, h.2.2 rfl Nat.zero_lt_one⟩

/-! ### C7: hour rollover -/

/-- The missed-hour loop collects exactly `n` hour-spaced timestamps when the
target is `n` whole hours ahead. -/
theorem aggregateMissedHours_eq_map :
    ∀ (n : Nat) (w target : Int), target - w = HOUR_MS * n →
      aggregateMissedHours w target =
        (List.range n).map fun (i : Nat) => w + HOUR_MS * (i : Int) := by
  intro n
  induction n with
  | zero =>
    intro w target h
    unfold aggregateMissedHours
    rw [if_neg]
    · rfl
    · omega
  | succ n ih =>
    intro w target h
    have hlt : w < target := by
      have : (0 : Int) < HOUR_MS * (n + 1 : Nat) := by
        unfold HOUR_MS
        positivity
      omega
    unfold aggregateMissedHours
    rw [if_pos hlt]
    have hstep : target - (w + HOUR_MS) = HOUR_MS * n := by
      push_cast at h
      linarith
    rw [ih (w + HOUR_MS) target hstep]
    rw [List.range_succ_eq_map, List.map_cons, List.map_map]
    congr 1
    · simp
    · refine List.map_congr_left ?_
      intro i hi
      simp only [Function.comp]
      push_cast
      ring

/-- C7: `checkAndTriggerAggregation` (i) initializes a missing watermark to
the current hour floor without aggregating; (ii) when the current hour floor
is `n ≥ 1` whole hours past the stored watermark, aggregates exactly the
hours `watermark, watermark + 1h, …, currentHourFloor - 1h` in order and
advances the watermark to the current hour floor; (iii) in particular,
triggering at hour `N+2` with watermark at hour `N` aggregates hours `N` and
`N+1` and advances the watermark to `N+2`. -/
theorem checkAndTriggerAggregation_contract (off now : Int) (st : AggregatorState) :
    (st.lastProcessedHour = none →
      checkAndTriggerAggregation off now st =
        { lastProcessedHour := some (getHourFloor off now)
          aggregatedHours := st.aggregatedHours }) ∧
    (∀ (w : Int) (n : Nat), st.lastProcessedHour = some w →
      getHourFloor off now - w = HOUR_MS * n → 0 < n →
      checkAndTriggerAggregation off now st =
        { lastProcessedHour := some (getHourFloor off now)
          aggregatedHours := st.aggregatedHours ++
            (List.range n).map fun (i : Nat) => w + HOUR_MS * (i : Int) }) ∧
    (∀ w : Int, st.lastProcessedHour = some w →
      getHourFloor off now = w + 2 * HOUR_MS →
      checkAndTriggerAggregation off now st =
        { lastProcessedHour := some (w + 2 * HOUR_MS)
          aggregatedHours := st.aggregatedHours ++ [w, w + HOUR_MS] }) := by
  have hmain : ∀ (w : Int) (n : Nat), st.lastProcessedHour = some w →
      getHourFloor off now - w = HOUR_MS * n → 0 < n →
      checkAndTriggerAggregation off now st =
        { lastProcessedHour := some (getHourFloor off now)
          aggregatedHours := st.aggregatedHours ++
            (List.range n).map fun (i : Nat) => w + HOUR_MS * (i : Int) } := by
    intro w n hw hn hpos
    unfold checkAndTriggerAggregation
    rw [hw]
    dsimp only
    have hlt : w < getHourFloor off now := by
      have : (0 : Int) < HOUR_MS * n := by
        unfold HOUR_MS
        positivity
      omega
    rw [if_pos hlt, aggregateMissedHours_eq_map n w (getHourFloor off now) hn]
  refine ⟨?_, hmain, ?_⟩
  · intro hnone
    unfold checkAndTriggerAggregation
    rw [hnone]
  · intro w hw hfloor
    have h2 := hmain w 2 hw (by rw [hfloor]; push_cast; ring) (by norm_num)
    rw [h2, hfloor]
    have : (List.range 2).map (fun (i : Nat) => w + HOUR_MS * (i : Int)) = [w, w + HOUR_MS] := by
      simp [List.range_succ]
    rw [this]

/-- Witness for `checkAndTriggerAggregation_contract`: with offset 0,
`now = 7200005` (five milliseconds past hour 2) and watermark at hour 0,
hours 0 and 3600000 are aggregated and the watermark advances to 7200000;
with no watermark, it is initialized without aggregating. -/
theorem checkAndTriggerAggregation_contract_witness :
    getHourFloor 0 7200005 = 0 + 2 * HOUR_MS ∧
    checkAndTriggerAggregation 0 7200005 ⟨some 0, []⟩ =
      ⟨some (0 + 2 * HOUR_MS), [0, 0 + HOUR_MS]⟩ ∧
    checkAndTriggerAggregation 0 7200005 ⟨none, []⟩ = ⟨some (0 + 2 * HOUR_MS), []⟩ := by
  have hfloor : getHourFloor 0 7200005 = 0 + 2 * HOUR_MS := by decide
  have h1 := (checkAndTriggerAggregation_contract 0 7200005 ⟨some 0, []⟩).2.2 0 rfl hfloor
  have h2 := (checkAndTriggerAggregation_contract 0 7200005 ⟨none, []⟩).1 rfl
  rw [hfloor] at h2
  refine ⟨hfloor, h1.trans rfl, h2.trans rfl⟩

/-! ### C8: single inference call in flight -/
theorem loopInv_init : LoopInv initLoopState := by
  refine ⟨by decide, fun h => by simp [initLoopState] at h, fun h => ?_⟩
  simp [initLoopState] at h

theorem loopInv_step (e : LoopEvent) (s : LoopState) (h : LoopInv s) :
    LoopInv (loopStep e s) := by
  obtain ⟨a, p, f⟩ := s
  obtain ⟨h1, h2, h3⟩ := h
  simp only at h1 h2 h3
  have hf : f = 0 ∨ f = 1 := by omega
  cases e with
  | startLoop mc =>
    rcases hf with rfl | rfl <;> cases a <;> cases p <;> cases mc <;>
      first
        | exact absurd (h3 rfl) (by decide)
        | exact absurd (h2 rfl).1 (by decide)
        | exact absurd (h2 rfl).2 (by decide)
        | simp [LoopInv, loopStep, cycleBody]
  | timerFire mc =>
    rcases hf with rfl | rfl <;> cases a <;> cases p <;> cases mc <;>
      first
        | exact absurd (h3 rfl) (by decide)
        | exact absurd (h2 rfl).1 (by decide)
        | exact absurd (h2 rfl).2 (by decide)
        | simp [LoopInv, loopStep, cycleBody]
  | callResolve =>
    rcases hf with rfl | rfl <;> cases a <;> cases p <;>
      first
        | exact absurd (h3 rfl) (by decide)
        | exact absurd (h2 rfl).1 (by decide)
        | exact absurd (h2 rfl).2 (by decide)
        | simp [LoopInv, loopStep, cycleBody]

/-- C8: in every reachable state of the analysis-loop scheduler at most one
inference call is in flight — each cycle suspends on the call and only the
resolution continuation re-arms the next cycle — and `startAnalysisLoop`
refuses to start a second loop while one is running (`if (isAnalyzing)
return`). -/
theorem analysis_loop_single_flight (s : LoopState) (h : LoopReachable s) :
    s.inFlight ≤ 1 ∧
    ∀ mc : Bool, s.analyzing = true → loopStep (LoopEvent.startLoop mc) s = s := by
  have hinv : LoopInv s := by
    induction h with
    | init => exact loopInv_init
    | step e h ih => exact loopInv_step e _ ih
  refine ⟨hinv.1, fun mc ha => ?_⟩
  simp [loopStep, ha]

/-- Witness for `analysis_loop_single_flight`: the state after starting the
loop and launching one call is reachable; at most one call is in flight
there, and a second `startAnalysisLoop` is a no-op. -/
theorem analysis_loop_single_flight_witness :
    LoopReachable ⟨true, false, 1⟩ ∧
    (⟨true, false, 1⟩ : LoopState).inFlight ≤ 1 ∧
    loopStep (LoopEvent.startLoop true) ⟨true, false, 1⟩ = ⟨true, false, 1⟩ := by
  have hr : LoopReachable ⟨true, false, 1⟩ := by
    have h := LoopReachable.step (LoopEvent.startLoop true) LoopReachable.init
    simpa [loopStep, cycleBody, initLoopState] using h
  exact ⟨hr, (analysis_loop_single_flight _ hr).1,
    (analysis_loop_single_flight _ hr).2 true rfl⟩

/-! ### C10: event-less sessions are never summarized -/

theorem chunkedSummaries_eq_map (parse : String → Option ParsedEvent) :
    ∀ (n : Nat) (valid : List UserSession), valid.length ≤ n →
      chunkedSummaries parse valid = valid.map (buildSummarizedSession parse) := by
  intro n
  induction n with
  | zero =>
    intro valid h
    have hnil : valid = [] := List.length_eq_zero.mp (Nat.le_zero.mp h)
    subst hnil
    unfold chunkedSummaries
    simp
  | succ n ih =>
    intro valid h
    unfold chunkedSummaries
    by_cases hv : valid.length = 0
    · rw [if_pos hv, List.length_eq_zero.mp hv]
      rfl
    · rw [if_neg hv, ih (valid.drop 50) (by simp only [List.length_drop]; omega),
        ← List.map_append, List.take_append_drop]

/-- C10: both aggregation entry points write exactly one summary per session
that has at least one event — a session whose `events` list is empty is
filtered out before `buildSummarizedSession` and never produces a
`SummarizedSession` record. -/
theorem aggregation_skips_eventless (parse : String → Option ParsedEvent)
    (sessions : List UserSession) :
    aggregateHourlyData parse sessions =
      (sessions.filter fun s => 0 < s.events.length).map
        (buildSummarizedSession parse) ∧
    aggregateAllData parse sessions =
      (sessions.filter fun s => 0 < s.events.length).map
        (buildSummarizedSession parse) := by
  constructor
  · unfold aggregateHourlyData
    by_cases h0 : sessions.length = 0
    · rw [if_pos h0, List.length_eq_zero.mp h0]
      rfl
    · rw [if_neg h0]
      by_cases h1 : (sessions.filter fun s => 0 < s.events.length).length = 0
      · rw [if_pos h1, List.length_eq_zero.mp h1]
        rfl
      · rw [if_neg h1]
  · unfold aggregateAllData
    by_cases h1 : (sessions.filter fun s => 0 < s.events.length).length = 0
    · rw [if_pos h1, List.length_eq_zero.mp h1]
      rfl
    · rw [if_neg h1]
      exact chunkedSummaries_eq_map parse _ _ (le_refl _)
